import Mathlib

/-!
Shallow embedding of the time-series normalization and chart-series sampling
pipeline of the investment-bot backend (canonical source:
`src/api/generate-chart.js`; variants in `src/unnamed/part_000`,
`src/unnamed/part_001`, `src/api/stock-history.js`).

Numbers: JavaScript floating-point arithmetic is modelled exactly over `ℚ`;
`Number.prototype.toFixed(2)` (followed by `parseFloat`) is modelled as
rounding to the nearest multiple of 1/100 (`round2`).  Null / undefined /
NaN upstream prices are modelled as `Option ℚ` with `none` for all three
invalid forms.  Dates (`new Date(timestamps[i] * 1000)`) are modelled by
their millisecond value, an `Int`.  The IEEE-754 special values produced by
division by zero are modelled separately by `JsNum` further below.
-/

namespace StockChart

/-- Rounding to 2 decimal places, `parseFloat(x.toFixed(2))`. -/
def round2 (q : ℚ) : ℚ :=
  (round (q * 100) : ℤ) / 100

/-- A cleaned data point, from `cleanData.push({date: ..., price: ...})` in
`fetchStockData` (`src/api/generate-chart.js` lines 191-194): the date is the
millisecond timestamp `timestamps[i] * 1000`, the price is the close price
rounded to 2 decimals. -/
structure CleanPoint where
  date : Int
  price : ℚ
  deriving DecidableEq, Repr

instance : Inhabited CleanPoint := ⟨⟨0, 0⟩⟩

/-- The null-filtering loop of `fetchStockData` (`src/api/generate-chart.js`
lines 186-196): iterate the paired `(timestamps[i], prices[i])` arrays, drop
every entry whose price is null/undefined/NaN (modelled as `none`), convert
survivors to a `CleanPoint` with the price rounded to 2 decimals.  When the
price array is shorter than the timestamp array, `prices[i]` is `undefined`
for the tail, so those entries are dropped as well. -/
def cleanData : List Int → List (Option ℚ) → List CleanPoint
  | [], _ => []
  | _ :: _, [] => []
  | t :: ts, p :: ps =>
    match p with
    | some v => ⟨t * 1000, round2 v⟩ :: cleanData ts ps
    | none => cleanData ts ps

/-- The comparator of `cleanData.sort((a, b) => a.date - b.date)`
(`src/api/generate-chart.js` line 199): ascending by date. -/
def byDate (a b : CleanPoint) : Prop :=
  a.date ≤ b.date

instance : DecidableRel byDate := fun a b => inferInstanceAs (Decidable (a.date ≤ b.date))

instance : IsTotal CleanPoint byDate := ⟨fun a b => le_total a.date b.date⟩

instance : IsTrans CleanPoint byDate := ⟨fun _ _ _ h h' => le_trans h h'⟩

/-- The cleaning stage of `fetchStockData`: null-filter, then
`cleanData.sort((a, b) => a.date - b.date)`.  JavaScript `Array.prototype.sort`
with this comparator is a stable sort ascending by date; it is modelled by the
stable `List.insertionSort`. -/
def fetchClean (ts : List Int) (ps : List (Option ℚ)) : List CleanPoint :=
  List.insertionSort byDate (cleanData ts ps)

/-- The part of the Yahoo response that `fetchStockData` inspects after JSON
parsing: `data.chart.error`, `result.timestamp` and
`result.indicators.quote[0].close` (absent fields modelled as `none`). -/
structure YahooPayload where
  chartError : Option String
  timestamp : Option (List Int)
  close : Option (List (Option ℚ))

/-- The function `fetchStockData` (`src/api/generate-chart.js` lines 165-212) after the
response is parsed: a provider-reported error fails with its description; a
missing `timestamp`/`close` array fails with the literal message from line
179; otherwise the cleaned, sorted series is returned with `success: true` —
note there is no emptiness check on the cleaned series. -/
def fetchStockData (p : YahooPayload) : Except String (List CleanPoint) :=
  match p.chartError with
  | some e => .error e
  | none =>
    match p.timestamp, p.close with
    | some ts, some ps => .ok (fetchClean ts ps)
    | _, _ => .error "Invalid data structure received"

/-- A settled per-symbol fetch: `{success: true, data}` or
`{success: false, error}` / a rejected promise with its reason. -/
abbrev FetchResult := Except String (List CleanPoint)

/-- The partition loop of the handler (`src/api/generate-chart.js` lines
46-59): `stockDataResults.forEach` pushes each fulfilled-and-successful result
(with its symbol) onto `validStockData` and every other result onto `errors`,
in request order. -/
def partitionOutcomes : List (String × FetchResult) →
    List (String × List CleanPoint) × List (String × String)
  | [] => ([], [])
  | (sym, r) :: rest =>
    let p := partitionOutcomes rest
    match r with
    | .ok d => ((sym, d) :: p.1, p.2)
    | .error e => (p.1, (sym, e) :: p.2)

/-- The aggregation decision (`src/api/generate-chart.js` lines 61-66): if
`validStockData.length === 0` the request fails with 404
`'No valid stock data found'` carrying the error list (`NoValidDataError`);
otherwise it proceeds with both partitions. -/
def aggregate (rs : List (String × FetchResult)) :
    Except (List (String × String))
      (List (String × List CleanPoint) × List (String × String)) :=
  let p := partitionOutcomes rs
  if p.1.isEmpty then .error p.2 else .ok p

/-- Spec-side order-preserving projection of the successes: the subsequence of
request entries whose fetch succeeded, in request order. -/
def okEntries (rs : List (String × FetchResult)) : List (String × List CleanPoint) :=
  rs.filterMap fun p =>
    match p.2 with
    | .ok d => some (p.1, d)
    | .error _ => none

/-- Spec-side order-preserving projection of the failures: the subsequence of
request entries whose fetch failed, in request order. -/
def errEntries (rs : List (String × FetchResult)) : List (String × String) :=
  rs.filterMap fun p =>
    match p.2 with
    | .ok _ => none
    | .error e => some (p.1, e)

/-- The index sequence of the sampling loop
`for (let i = 0; i < L; i += step)`: the multiples of `step` below `L`,
of which there are `⌈L / step⌉ = (L + step - 1) / step`. -/
def loopIndices (L step : Nat) : List Nat :=
  (List.range ((L + step - 1) / step)).map (· * step)

/-- The single-stock sampler (`src/api/generate-chart.js` lines 296-309):
`step = Math.max(1, Math.floor(L / budget))` (the code fixes `budget = 50`),
emit every `step`-th point starting at index 0, then
`if (L > 0 && L % step !== 0)` append the last original point.  Generic in the
element type since the code runs the identical loop over both the label and
the price arrays. -/
def samplePoints (xs : List α) (budget : Nat) : List α :=
  let L := xs.length
  let step := max 1 (L / budget)
  let core := (loopIndices L step).filterMap fun i => xs[i]?
  if 0 < L ∧ L % step ≠ 0 then core ++ xs.getLast?.toList else core

/-- The comparison-branch sampling loop (`src/api/generate-chart.js` lines
242-247): same `step = Math.max(1, Math.floor(L / 50))` stride, but with no
final-point append. -/
def sampleLoopPoints (xs : List CleanPoint) : List CleanPoint :=
  let step := max 1 (xs.length / 50)
  (loopIndices xs.length step).filterMap fun i => xs[i]?

/-- The comparison-branch percentage series (`src/api/generate-chart.js` lines
238-247): `firstPrice = stock.data[0].price`, and for each sampled index the
loop pushes `((data[i].price - firstPrice) / firstPrice * 100).toFixed(2)`. -/
def percentageData (xs : List CleanPoint) : List ℚ :=
  let firstPrice := xs.headI.price
  let step := max 1 (xs.length / 50)
  (loopIndices xs.length step).filterMap fun i =>
    (xs[i]?).map fun c => round2 ((c.price - firstPrice) / firstPrice * 100)

/-- The label sampling in the comparison chart config
(`src/api/generate-chart.js` lines 263-264):
`stockData[0].data.filter((_, i) => i % Math.max(1, Math.floor(L / 50)) === 0)`
keeps the entries whose index is a multiple of the stride. -/
def filterSample (xs : List CleanPoint) : List CleanPoint :=
  let step := max 1 (xs.length / 50)
  ((xs.enum.filter fun p => p.1 % step == 0).map fun p => p.2)

/-- The shape of the comparison-mode chart configuration
(`src/api/generate-chart.js` lines 260-266): a single shared `labels` array
(date strings, modelled by the millisecond date values) and per-symbol
datasets whose `data` is a plain array of y-values only. -/
structure ComparisonChart where
  labels : List Int
  datasets : List (String × List ℚ)
  deriving DecidableEq, Repr

/-- The comparison branch of `createChartConfig` (`src/api/generate-chart.js`
lines 225-266): one dataset per successful stock (skipped when its series is
empty, line 236) holding only the sampled percentage values, and a single
`labels` array computed from `stockData[0]` alone. -/
def createComparisonConfig (stockData : List (String × List CleanPoint)) :
    ComparisonChart where
  labels := (filterSample stockData.headI.2).map fun c => c.date
  datasets := stockData.filterMap fun s =>
    if s.2.length = 0 then none else some (s.1, percentageData s.2)

/-- Seconds in a day, `const secondsPerDay = 24 * 60 * 60`
(`src/api/generate-chart.js` line 129). -/
def secondsPerDay : Int := 24 * 60 * 60

/-- The range switch of `fetchStockData` (`src/api/generate-chart.js` lines
128-149): `period1` as a function of `nowUnix` and the range token, with the
`default` branch giving the 1Y lookback. -/
def period1 (nowUnix : Int) (range : String) : Int :=
  if range = "1M" then nowUnix - 30 * secondsPerDay
  else if range = "3M" then nowUnix - 90 * secondsPerDay
  else if range = "6M" then nowUnix - 182 * secondsPerDay
  else if range = "1Y" then nowUnix - 365 * secondsPerDay
  else if range = "5Y" then nowUnix - 5 * 365 * secondsPerDay
  else nowUnix - 365 * secondsPerDay

/-- The duration table stated by the spec (section 4.1, with the 182-day
reading of "6M"), in days; unknown tokens take the 1Y entry.  Used to compare
the code's `period1` against the spec's table. -/
def durationDays (range : String) : Int :=
  if range = "1M" then 30
  else if range = "3M" then 90
  else if range = "6M" then 182
  else if range = "1Y" then 365
  else if range = "5Y" then 5 * 365
  else 365

/-- The range switch of `src/api/stock-history.js` (lines 32-50), whose "6M"
reading is 180 days. -/
def period1History (now : Int) (range : String) : Int :=
  if range = "1M" then now - 30 * 24 * 60 * 60
  else if range = "3M" then now - 90 * 24 * 60 * 60
  else if range = "6M" then now - 180 * 24 * 60 * 60
  else if range = "1Y" then now - 365 * 24 * 60 * 60
  else if range = "5Y" then now - 5 * 365 * 24 * 60 * 60
  else now - 365 * 24 * 60 * 60

/-- A JavaScript number restricted to the behaviour the pipeline exercises:
either an exact finite value (arithmetic on in-range values modelled exactly
over `ℚ`) or one of the IEEE-754 special values `Infinity`, `-Infinity`,
`NaN` that division by zero produces. -/
inductive JsNum where
  | finite : ℚ → JsNum
  | posInf : JsNum
  | negInf : JsNum
  | nan : JsNum
  deriving DecidableEq, Repr

namespace JsNum

/-- JavaScript subtraction on `JsNum`. -/
def sub : JsNum → JsNum → JsNum
  | finite a, finite b => finite (a - b)
  | nan, _ => nan
  | _, nan => nan
  | posInf, posInf => nan
  | negInf, negInf => nan
  | posInf, _ => posInf
  | negInf, _ => negInf
  | finite _, posInf => negInf
  | finite _, negInf => posInf

/-- JavaScript division on `JsNum`: dividing a nonzero finite value by zero
(the `+0` of the source) yields a signed infinity, `0 / 0` yields `NaN`. -/
def div : JsNum → JsNum → JsNum
  | nan, _ => nan
  | _, nan => nan
  | finite a, finite b =>
    if b = 0 then (if a = 0 then nan else if 0 < a then posInf else negInf)
    else finite (a / b)
  | posInf, finite b => if 0 ≤ b then posInf else negInf
  | negInf, finite b => if 0 ≤ b then negInf else posInf
  | finite _, posInf => finite 0
  | finite _, negInf => finite 0
  | posInf, posInf => nan
  | posInf, negInf => nan
  | negInf, posInf => nan
  | negInf, negInf => nan

/-- JavaScript multiplication on `JsNum`. -/
def mul : JsNum → JsNum → JsNum
  | nan, _ => nan
  | _, nan => nan
  | finite a, finite b => finite (a * b)
  | posInf, finite b => if b = 0 then nan else if 0 < b then posInf else negInf
  | negInf, finite b => if b = 0 then nan else if 0 < b then negInf else posInf
  | finite a, posInf => if a = 0 then nan else if 0 < a then posInf else negInf
  | finite a, negInf => if a = 0 then nan else if 0 < a then negInf else posInf
  | posInf, posInf => posInf
  | posInf, negInf => negInf
  | negInf, posInf => negInf
  | negInf, negInf => posInf

/-- Value-wise `toFixed(2)`: finite values are rounded to 2 decimals, while
`Infinity.toFixed(2)` and `NaN.toFixed(2)` keep their non-finite value
(`"Infinity"`, `"NaN"`). -/
def round2Js : JsNum → JsNum
  | finite a => finite (round2 a)
  | posInf => posInf
  | negInf => negInf
  | nan => nan

/-- JavaScript `Number.isFinite`. -/
def isFinite : JsNum → Bool
  | finite _ => true
  | _ => false

end JsNum

/-- The comparison-branch percentage computation carried out in JavaScript
number semantics (`src/api/generate-chart.js` line 246):
`((data[i].price - firstPrice) / firstPrice * 100).toFixed(2)` over the
sampled points, with no guard against `firstPrice` being zero. -/
def percentageDataJs (xs : List CleanPoint) : List JsNum :=
  let firstPrice := xs.headI.price
  (sampleLoopPoints xs).map fun c =>
    JsNum.round2Js
      ((((JsNum.finite c.price).sub (JsNum.finite firstPrice)).div
        (JsNum.finite firstPrice)).mul (JsNum.finite 100))

/-! ### Helper lemmas -/

theorem samplePoints_def (xs : List α) (budget : Nat) :
    samplePoints xs budget =
      if 0 < xs.length ∧ xs.length % max 1 (xs.length / budget) ≠ 0 then
        ((loopIndices xs.length (max 1 (xs.length / budget))).filterMap fun i => xs[i]?)
          ++ xs.getLast?.toList
      else
        (loopIndices xs.length (max 1 (xs.length / budget))).filterMap fun i => xs[i]? :=
  rfl

theorem length_loopIndices (L step : Nat) :
    (loopIndices L step).length = (L + step - 1) / step := by
  simp [loopIndices]

/-- Reading every index of a list via `getElem?` gives the list back. -/
theorem filterMap_getElem_range (xs : List α) :
    ((List.range xs.length).filterMap fun i => xs[i]?) = xs := by
  induction xs with
  | nil => rfl
  | cons x xs ih =>
    rw [List.length_cons, List.range_succ_eq_map, List.filterMap_cons]
    simp only [List.getElem?_cons_zero, List.filterMap_map, Function.comp_def,
      List.getElem?_cons_succ]
    rw [ih]

/-- The sampler output never exceeds 99 points: for series shorter than 100
the stride is 1 and every point is kept, and for longer series the loop emits
`⌈L / ⌊L/50⌋⌉ ≤ 75` points plus at most one appended endpoint. -/
theorem samplePoints_length_le (xs : List α) : (samplePoints xs 50).length ≤ 99 := by
  rw [samplePoints_def]
  by_cases h100 : xs.length < 100
  · have hstep : max 1 (xs.length / 50) = 1 := by omega
    rw [hstep]
    have hmod : ¬(0 < xs.length ∧ xs.length % 1 ≠ 0) := by omega
    rw [if_neg hmod]
    calc ((loopIndices xs.length 1).filterMap fun i => xs[i]?).length
        ≤ (loopIndices xs.length 1).length := List.length_filterMap_le _ _
      _ = (xs.length + 1 - 1) / 1 := length_loopIndices _ _
      _ ≤ 99 := by omega
  · have hstep : max 1 (xs.length / 50) = xs.length / 50 := by omega
    rw [hstep]
    have h2 : 2 ≤ xs.length / 50 := by omega
    have hub : xs.length + xs.length / 50 - 1 ≤ xs.length / 50 * 51 + 48 := by omega
    have hcore :
        ((loopIndices xs.length (xs.length / 50)).filterMap fun i => xs[i]?).length ≤ 75 := by
      calc ((loopIndices xs.length (xs.length / 50)).filterMap fun i => xs[i]?).length
          ≤ (loopIndices xs.length (xs.length / 50)).length := List.length_filterMap_le _ _
        _ = (xs.length + xs.length / 50 - 1) / (xs.length / 50) := length_loopIndices _ _
        _ ≤ (xs.length / 50 * 51 + 48) / (xs.length / 50) := Nat.div_le_div_right hub
        _ = (48 + 51 * (xs.length / 50)) / (xs.length / 50) := by
            rw [Nat.mul_comm (xs.length / 50) 51, Nat.add_comm]
        _ = 48 / (xs.length / 50) + 51 := Nat.add_mul_div_right _ _ (by omega)
        _ ≤ 48 / 2 + 51 := Nat.add_le_add_right (Nat.div_le_div_left h2 (by omega)) 51
        _ ≤ 75 := by omega
    split
    · rw [List.length_append]
      have hlast : xs.getLast?.toList.length ≤ 1 := by
        cases xs.getLast? <;> simp [Option.toList]
      omega
    · exact le_trans hcore (by omega)

/-- When `⌊L / budget⌋ ≤ 1` the stride is 1, so the sampler is the identity:
the loop visits every index and the append guard `L % 1 !== 0` never fires. -/
theorem samplePoints_of_small (xs : List α) (budget : Nat)
    (h : xs.length / budget ≤ 1) : samplePoints xs budget = xs := by
  have hstep : max 1 (xs.length / budget) = 1 := max_eq_left h
  rw [samplePoints_def, hstep]
  have hcond : ¬(0 < xs.length ∧ xs.length % 1 ≠ 0) := by omega
  rw [if_neg hcond]
  have hloop : loopIndices xs.length 1 = List.range xs.length := by
    simp [loopIndices]
  rw [hloop, filterMap_getElem_range]

/-- The sampling loop always fires at index 0, so the first point survives. -/
theorem head_mem_samplePoints (xs : List α) (h : xs ≠ []) (budget : Nat) :
    xs.head h ∈ samplePoints xs budget := by
  have hpos : 0 < xs.length := List.length_pos.2 h
  have h1 : 1 ≤ max 1 (xs.length / budget) := le_max_left _ _
  have h0 : 0 ∈ loopIndices xs.length (max 1 (xs.length / budget)) := by
    unfold loopIndices
    refine List.mem_map.2 ⟨0, List.mem_range.2 (Nat.div_pos (by omega) (by omega)), by simp⟩
  have hmem : xs.head h ∈
      (loopIndices xs.length (max 1 (xs.length / budget))).filterMap fun i => xs[i]? := by
    refine List.mem_filterMap.2 ⟨0, h0, ?_⟩
    rw [List.getElem?_eq_getElem hpos, List.getElem_zero]
  rw [samplePoints_def]
  split
  · exact List.mem_append_left _ hmem
  · exact hmem

/-- The final point survives sampling when the stride is 1 (the loop visits
every index) or when `L % step ≠ 0` (the append guard fires). -/
theorem getLast_mem_samplePoints (xs : List α) (h : xs ≠ []) (budget : Nat)
    (hc : max 1 (xs.length / budget) = 1 ∨
      xs.length % max 1 (xs.length / budget) ≠ 0) :
    xs.getLast h ∈ samplePoints xs budget := by
  have hpos : 0 < xs.length := List.length_pos.2 h
  rw [samplePoints_def]
  rcases hc with h1 | hmod
  · rw [h1]
    have hcond : ¬(0 < xs.length ∧ xs.length % 1 ≠ 0) := by omega
    rw [if_neg hcond]
    refine List.mem_filterMap.2 ⟨xs.length - 1, ?_, ?_⟩
    · unfold loopIndices
      exact List.mem_map.2 ⟨xs.length - 1, List.mem_range.2 (by omega), by simp⟩
    · rw [List.getElem?_eq_getElem (by omega), List.getLast_eq_getElem]
  · rw [if_pos ⟨hpos, hmod⟩]
    refine List.mem_append_right _ ?_
    rw [List.getLast?_eq_getLast xs h]
    simp [Option.toList]

/-- Exact-stride ceiling quotient: when the length is an exact multiple of the
stride, `(step * q + step - 1) / step = q`. -/
theorem ceil_div_exact (step q : Nat) (hstep : 0 < step) :
    (step * q + step - 1) / step = q := by
  have he : step * q + step - 1 = step * q + (step - 1) := by omega
  rw [he, Nat.mul_add_div hstep]
  have h2 : (step - 1) / step = 0 := Nat.div_eq_of_lt (by omega)
  omega

/-- Ceiling quotient with a nonzero remainder: one extra loop iteration. -/
theorem ceil_div_inexact (step q r : Nat) (hstep : 0 < step) (hr1 : 1 ≤ r)
    (hr : r < step) : (step * q + r + step - 1) / step = q + 1 := by
  have he : step * q + r + step - 1 = step * (q + 1) + (r - 1) := by
    rw [Nat.mul_succ]
    omega
  rw [he, Nat.mul_add_div hstep]
  have h2 : (r - 1) / step = 0 := Nat.div_eq_of_lt (by omega)
  omega

/-- The filter `(_, i) => i % step === 0` over the indices below `L` selects
exactly the indices visited by the loop `for (i = 0; i < L; i += step)`. -/
theorem range_filter_mod_eq (step : Nat) (hstep : 0 < step) (L : Nat) :
    (List.range L).filter (fun i => i % step == 0) = loopIndices L step := by
  induction L with
  | zero =>
    have h0 : (step - 1) / step = 0 := Nat.div_eq_of_lt (by omega)
    simp [loopIndices, h0]
  | succ L ih =>
    rw [List.range_succ, List.filter_append, ih]
    have hqr : step * (L / step) + L % step = L := Nat.div_add_mod L step
    have hr : L % step < step := Nat.mod_lt _ hstep
    unfold loopIndices
    by_cases h0 : L % step = 0
    · have hc1 : (L + step - 1) / step = L / step := by
        have he : L + step - 1 = step * (L / step) + step - 1 := by omega
        rw [he, ceil_div_exact step (L / step) hstep]
      have hc2 : (L + 1 + step - 1) / step = L / step + 1 := by
        have he : L + 1 + step - 1 = step * (L / step) + step := by omega
        rw [he, ← Nat.mul_succ, Nat.mul_div_cancel_left _ hstep]
      have hfilter : List.filter (fun i => i % step == 0) [L] = [L] := by
        simp [List.filter_cons, h0]
      have hL : L / step * step = L := by
        rw [Nat.mul_comm (L / step) step]
        omega
      rw [hc1, hc2, hfilter, List.range_succ, List.map_append]
      simp [hL]
    · have hc : (L + 1 + step - 1) / step = (L + step - 1) / step := by
        have he2 : L + 1 + step - 1 = step * (L / step + 1) + L % step := by
          rw [Nat.mul_succ]
          omega
        rw [he2, Nat.mul_add_div hstep, Nat.div_eq_of_lt hr]
        have he1 : L + step - 1 = step * (L / step) + L % step + step - 1 := by omega
        rw [he1, ceil_div_inexact step (L / step) (L % step) hstep (by omega) hr]
      have hfilter : List.filter (fun i => i % step == 0) [L] = [] := by
        simp [List.filter_cons, h0]
      rw [hfilter, List.append_nil, hc]

/-- Filtering an enumerated list on the index and keeping the values equals
filtering the index range and reading each surviving index back. -/
theorem enumFrom_filter_map_eq (xs : List α) (P : Nat → Bool) :
    ∀ n, (((xs.enumFrom n).filter fun p => P p.1).map fun p => p.2) =
      ((List.range xs.length).filter fun i => P (n + i)).filterMap fun i => xs[i]? := by
  induction xs with
  | nil => intro n; rfl
  | cons x xs ih =>
    intro n
    rw [List.enumFrom_cons, List.length_cons, List.range_succ_eq_map,
      List.filter_cons, List.filter_cons]
    have hpred : ((fun i => P (n + i)) ∘ Nat.succ) = fun i => P (n + 1 + i) := by
      funext i
      simp only [Function.comp_apply]
      congr 1
      omega
    by_cases hPn : P n = true
    · simp only [hPn, Nat.add_zero, if_pos]
      rw [List.map_cons, List.filter_map, List.filterMap_cons, hpred]
      simp only [List.getElem?_cons_zero, List.filterMap_map, Function.comp_def,
        List.getElem?_cons_succ]
      rw [ih (n + 1)]
    · simp only [hPn, Nat.add_zero]
      rw [if_neg (by simp [hPn]), if_neg (by simp [hPn])]
      rw [List.filter_map, hpred]
      simp only [List.filterMap_map, Function.comp_def, List.getElem?_cons_succ]
      rw [ih (n + 1)]

/-- The label sampling (`filter` on index multiples) and the dataset sampling
loop (stride `step`) select the same points. -/
theorem filterSample_eq_sampleLoop (xs : List CleanPoint) :
    filterSample xs = sampleLoopPoints xs := by
  show (((xs.enumFrom 0).filter fun p => p.1 % max 1 (xs.length / 50) == 0).map
      fun p => p.2) =
    (loopIndices xs.length (max 1 (xs.length / 50))).filterMap fun i => xs[i]?
  rw [enumFrom_filter_map_eq xs (fun i => i % max 1 (xs.length / 50) == 0) 0]
  simp only [Nat.zero_add]
  rw [range_filter_mod_eq _ (by omega) xs.length]

/-- The `forEach` partition loop computes exactly the two order-preserving
projections of the request list. -/
theorem partitionOutcomes_eq (rs : List (String × FetchResult)) :
    partitionOutcomes rs = (okEntries rs, errEntries rs) := by
  induction rs with
  | nil => rfl
  | cons p rest ih =>
    obtain ⟨sym, r⟩ := p
    cases r with
    | ok d => simp [partitionOutcomes, okEntries, errEntries, List.filterMap_cons, ih]
    | error e => simp [partitionOutcomes, okEntries, errEntries, List.filterMap_cons, ih]

theorem length_okEntries (rs : List (String × FetchResult)) :
    (okEntries rs).length = rs.countP fun p => p.2.isOk := by
  induction rs with
  | nil => rfl
  | cons p rest ih =>
    obtain ⟨sym, r⟩ := p
    cases r with
    | ok d =>
      simp only [okEntries, List.filterMap_cons, List.countP_cons, List.length_cons,
        Except.isOk, Except.toBool] at ih ⊢
      simp [ih]
    | error e =>
      simp only [okEntries, List.filterMap_cons, List.countP_cons, List.length_cons,
        Except.isOk, Except.toBool] at ih ⊢
      simp [ih]

theorem length_okEntries_add_errEntries (rs : List (String × FetchResult)) :
    (okEntries rs).length + (errEntries rs).length = rs.length := by
  induction rs with
  | nil => rfl
  | cons p rest ih =>
    obtain ⟨sym, r⟩ := p
    cases r with
    | ok d =>
      simp only [okEntries, errEntries, List.filterMap_cons] at ih ⊢
      simp only [List.length_cons]
      omega
    | error e =>
      simp only [okEntries, errEntries, List.filterMap_cons] at ih ⊢
      simp only [List.length_cons]
      omega

/-- Idempotence of `toFixed(2)`: a price already rounded to 2 decimals is
unchanged by rounding again. -/
theorem round2_idem (q : ℚ) : round2 (round2 q) = round2 q := by
  unfold round2
  rw [div_mul_cancel₀ _ (by norm_num : (100 : ℚ) ≠ 0), round_intCast]

/-- Length of the null-filtering loop output: the raw length minus the number
of invalid (null/undefined/NaN) prices, when the arrays are paired. -/
theorem cleanData_length (ts : List Int) (ps : List (Option ℚ))
    (hlen : ps.length = ts.length) :
    (cleanData ts ps).length = ts.length - ps.countP fun p => p.isNone := by
  induction ts generalizing ps with
  | nil =>
    cases ps with
    | nil => rfl
    | cons p ps => simp at hlen
  | cons t ts ih =>
    cases ps with
    | nil => simp at hlen
    | cons p ps =>
      have hlen2 : ps.length = ts.length := by simpa using hlen
      have hcount : ps.countP (fun p => p.isNone) ≤ ts.length :=
        hlen2 ▸ List.countP_le_length _
      cases p with
      | none =>
        have hred : cleanData (t :: ts) (none :: ps) = cleanData ts ps := rfl
        rw [hred, ih ps hlen2, List.countP_cons, List.length_cons]
        simp only [Option.isNone_none, if_pos]
        omega
      | some v =>
        have hred : cleanData (t :: ts) (some v :: ps) =
            ⟨t * 1000, round2 v⟩ :: cleanData ts ps := rfl
        rw [hred, List.length_cons, ih ps hlen2, List.countP_cons, List.length_cons]
        simp only [Option.isNone_some, Bool.false_eq_true, if_false]
        omega

/-- Every price the cleaning loop emits has been passed through `round2`. -/
theorem mem_cleanData_round2 {c : CleanPoint} :
    ∀ (ts : List Int) (ps : List (Option ℚ)), c ∈ cleanData ts ps →
      round2 c.price = c.price := by
  intro ts
  induction ts with
  | nil => intro ps h; simp [cleanData] at h
  | cons t ts ih =>
    intro ps h
    cases ps with
    | nil => simp [cleanData] at h
    | cons p ps =>
      cases p with
      | none => exact ih ps h
      | some v =>
        rcases List.mem_cons.1 h with hc | hc
        · rw [hc]
          exact round2_idem v
        · exact ih ps hc

/-- When every raw price is invalid, the cleaning loop emits nothing. -/
theorem cleanData_all_none (ts : List Int) (ps : List (Option ℚ))
    (h : ∀ p ∈ ps, p = none) : cleanData ts ps = [] := by
  induction ts generalizing ps with
  | nil => cases ps <;> rfl
  | cons t ts ih =>
    cases ps with
    | nil => rfl
    | cons p ps =>
      have hp : p = none := h p (List.mem_cons_self p ps)
      subst hp
      exact ih ps fun q hq => h q (List.mem_cons_of_mem _ hq)

theorem headI_eq_head [Inhabited α] {xs : List α} (h : xs ≠ []) :
    xs.headI = xs.head h := by
  cases xs with
  | nil => exact absurd rfl h
  | cons a l => rfl

theorem aggregate_def (rs : List (String × FetchResult)) :
    aggregate rs =
      if (okEntries rs).isEmpty then .error (errEntries rs)
      else .ok (okEntries rs, errEntries rs) := by
  show (if (partitionOutcomes rs).1.isEmpty then Except.error (partitionOutcomes rs).2
      else Except.ok (partitionOutcomes rs)) = _
  rw [partitionOutcomes_eq]

/-! ### Claims -/

/-- A cleaned series of length 104 with pairwise distinct points, used to
exhibit the sampler's behaviour at a length that the stride divides. -/
def ex104 : List CleanPoint :=
  (List.range 104).map fun i => ⟨i, i⟩

/-- C1, counterexample.  For the cleaned series `ex104` of length `L = 104`
(so `step = max(1, ⌊104 / 50⌋) = 2`), the sampled output has 52 points —
exceeding the claimed bound `B + 1 = 51` — and the final original point
`ex104.getLast = ⟨103, 103⟩` is not contained in it: the loop stops at index
102 and the append guard `104 % 2 !== 0` is false. -/
theorem C1_sampler_counterexample :
    ex104.length = 104 ∧
      ex104.getLast (by decide) = ⟨103, 103⟩ ∧
      (samplePoints ex104 50).length = 52 ∧
      (⟨103, 103⟩ : CleanPoint) ∉ samplePoints ex104 50 := by
  refine ⟨by decide, by decide, by decide, by decide⟩

/-- C1, amended.  For every cleaned series of length `L ≥ 1` sampled with
budget `B = 50` (stride `step = max(1, ⌊L / 50⌋)`), the sampled output has
length at most `2 * B - 1 = 99` (not `B + 1 = 51`), always contains the point
at index 0, and contains the final original point whenever `step = 1` or
`L % step ≠ 0` (when `step ≥ 2` divides `L`, the final point is dropped, as
the counterexample shows). -/
theorem C1_sampler_amended (xs : List CleanPoint) (h : xs ≠ []) :
    (samplePoints xs 50).length ≤ 99 ∧
      xs.head h ∈ samplePoints xs 50 ∧
      ((max 1 (xs.length / 50) = 1 ∨ xs.length % max 1 (xs.length / 50) ≠ 0) →
        xs.getLast h ∈ samplePoints xs 50) :=
  ⟨samplePoints_length_le xs, head_mem_samplePoints xs h 50,
    fun hc => getLast_mem_samplePoints xs h 50 hc⟩

/-- C1 amended, witness at the concrete two-point series. -/
theorem C1_sampler_amended_witness :
    ([⟨0, 1⟩, ⟨1000, 2⟩] : List CleanPoint) ≠ [] ∧
      ((samplePoints ([⟨0, 1⟩, ⟨1000, 2⟩] : List CleanPoint) 50).length ≤ 99 ∧
        ([⟨0, 1⟩, ⟨1000, 2⟩] : List CleanPoint).head (by decide) ∈
          samplePoints ([⟨0, 1⟩, ⟨1000, 2⟩] : List CleanPoint) 50 ∧
        ((max 1 (([⟨0, 1⟩, ⟨1000, 2⟩] : List CleanPoint).length / 50) = 1 ∨
            ([⟨0, 1⟩, ⟨1000, 2⟩] : List CleanPoint).length %
              max 1 (([⟨0, 1⟩, ⟨1000, 2⟩] : List CleanPoint).length / 50) ≠ 0) →
          ([⟨0, 1⟩, ⟨1000, 2⟩] : List CleanPoint).getLast (by decide) ∈
            samplePoints ([⟨0, 1⟩, ⟨1000, 2⟩] : List CleanPoint) 50)) :=
  ⟨by decide, C1_sampler_amended _ (by decide)⟩

/-- C2.  For every request of `N` symbols (`1 ≤ N ≤ 5`) whose settled fetch
outcomes are `rs`, with `K` the number of successes: if `K = 0` the aggregate
fails with the 404 `NoValidDataError` carrying the full failure list (one
entry per requested symbol); if `K ≥ 1` it succeeds, the success partition has
exactly `K` entries, and both partitions are the order-preserving projections
`okEntries` / `errEntries` of the request list. -/
theorem C2_aggregator (rs : List (String × FetchResult))
    (_h1 : 1 ≤ rs.length) (_h5 : rs.length ≤ 5) :
    (rs.countP (fun p => p.2.isOk) = 0 →
      aggregate rs = .error (errEntries rs) ∧ (errEntries rs).length = rs.length) ∧
    (1 ≤ rs.countP (fun p => p.2.isOk) →
      aggregate rs = .ok (okEntries rs, errEntries rs) ∧
        (okEntries rs).length = rs.countP (fun p => p.2.isOk)) := by
  have hlen := length_okEntries rs
  have hsum := length_okEntries_add_errEntries rs
  constructor
  · intro hK
    have hnil : okEntries rs = [] := List.length_eq_zero.1 (by omega)
    refine ⟨?_, by omega⟩
    rw [aggregate_def, hnil]
    rfl
  · intro hK
    have hne : okEntries rs ≠ [] := by
      intro hnil
      rw [hnil] at hlen
      simp only [List.length_nil] at hlen
      omega
    refine ⟨?_, by omega⟩
    rw [aggregate_def]
    cases hok : okEntries rs with
    | nil => exact absurd hok hne
    | cons a as => rfl

/-- C2, witness: two symbols, one success and one failure. -/
theorem C2_aggregator_witness :
    1 ≤ ([("AAPL", (.ok [] : FetchResult)), ("ZZZZ", .error "boom")] :
        List (String × FetchResult)).length ∧
      ([("AAPL", (.ok [] : FetchResult)), ("ZZZZ", .error "boom")] :
        List (String × FetchResult)).length ≤ 5 ∧
      (([("AAPL", (.ok [] : FetchResult)), ("ZZZZ", .error "boom")] :
          List (String × FetchResult)).countP (fun p => p.2.isOk) = 0 →
        aggregate [("AAPL", (.ok [] : FetchResult)), ("ZZZZ", .error "boom")] =
            .error (errEntries [("AAPL", (.ok [] : FetchResult)), ("ZZZZ", .error "boom")]) ∧
          (errEntries [("AAPL", (.ok [] : FetchResult)), ("ZZZZ", .error "boom")]).length =
            ([("AAPL", (.ok [] : FetchResult)), ("ZZZZ", .error "boom")] :
              List (String × FetchResult)).length) ∧
      (1 ≤ ([("AAPL", (.ok [] : FetchResult)), ("ZZZZ", .error "boom")] :
          List (String × FetchResult)).countP (fun p => p.2.isOk) →
        aggregate [("AAPL", (.ok [] : FetchResult)), ("ZZZZ", .error "boom")] =
            .ok (okEntries [("AAPL", (.ok [] : FetchResult)), ("ZZZZ", .error "boom")],
              errEntries [("AAPL", (.ok [] : FetchResult)), ("ZZZZ", .error "boom")]) ∧
          (okEntries [("AAPL", (.ok [] : FetchResult)), ("ZZZZ", .error "boom")]).length =
            ([("AAPL", (.ok [] : FetchResult)), ("ZZZZ", .error "boom")] :
              List (String × FetchResult)).countP (fun p => p.2.isOk)) :=
  ⟨by decide, by decide,
    (C2_aggregator _ (by decide) (by decide)).1,
    (C2_aggregator _ (by decide) (by decide)).2⟩

/-- C3.  In comparison mode, the emitted y-series of a stock equals the
percentage-change formula `(P1 - P0) / P0 * 100`, rounded to 2 decimals,
mapped over that stock's own loop-sampled points, with `P0` the series' first
price (which is also its first sampled price, since the loop always emits
index 0). -/
theorem C3_comparison_percentages (xs : List CleanPoint) (h : xs ≠ []) :
    percentageData xs =
      (sampleLoopPoints xs).map fun c =>
        round2 ((c.price - (xs.head h).price) / (xs.head h).price * 100) := by
  show ((loopIndices xs.length (max 1 (xs.length / 50))).filterMap fun i =>
      (xs[i]?).map fun c =>
        round2 ((c.price - xs.headI.price) / xs.headI.price * 100)) =
    ((loopIndices xs.length (max 1 (xs.length / 50))).filterMap fun i =>
      xs[i]?).map fun c =>
        round2 ((c.price - (xs.head h).price) / (xs.head h).price * 100)
  rw [List.map_filterMap, headI_eq_head h]

/-- C3, witness at a concrete two-point series: `P0 = 1`, `P1 = 2` give
`0.00` and `100.00` percent. -/
theorem C3_comparison_percentages_witness :
    ([⟨0, 1⟩, ⟨1000, 2⟩] : List CleanPoint) ≠ [] ∧
      percentageData ([⟨0, 1⟩, ⟨1000, 2⟩] : List CleanPoint) =
        (sampleLoopPoints ([⟨0, 1⟩, ⟨1000, 2⟩] : List CleanPoint)).map fun c =>
          round2 ((c.price - (([⟨0, 1⟩, ⟨1000, 2⟩] :
              List CleanPoint).head (by decide)).price) /
            (([⟨0, 1⟩, ⟨1000, 2⟩] : List CleanPoint).head (by decide)).price * 100) :=
  ⟨by decide, C3_comparison_percentages _ (by decide)⟩

/-- C4.  For paired raw arrays the cleaned, sorted series has length exactly
the raw length minus the number of invalid (null/undefined/NaN) prices, and
every surviving price is exactly 2-decimal rounded (`round2` leaves it
unchanged); the `CleanPoint` type itself rules out null/NaN prices. -/
theorem C4_cleaning (ts : List Int) (ps : List (Option ℚ))
    (hlen : ps.length = ts.length) (_hnull : (none : Option ℚ) ∈ ps) :
    (fetchClean ts ps).length = ts.length - ps.countP (fun p => p.isNone) ∧
      ∀ c ∈ fetchClean ts ps, round2 c.price = c.price := by
  constructor
  · rw [fetchClean, List.length_insertionSort, cleanData_length ts ps hlen]
  · intro c hc
    rw [fetchClean, List.mem_insertionSort] at hc
    exact mem_cleanData_round2 ts ps hc

/-- C4, witness: two raw entries, one null — one clean survivor. -/
theorem C4_cleaning_witness :
    ([some (817 / 200), none] : List (Option ℚ)).length = ([10, 20] : List Int).length ∧
      (none : Option ℚ) ∈ ([some (817 / 200), none] : List (Option ℚ)) ∧
      ((fetchClean [10, 20] [some (817 / 200), none]).length =
          ([10, 20] : List Int).length -
            ([some (817 / 200), none] : List (Option ℚ)).countP (fun p => p.isNone) ∧
        ∀ c ∈ fetchClean [10, 20] [some (817 / 200), none], round2 c.price = c.price) :=
  ⟨by decide, by decide, C4_cleaning _ _ (by decide) (by decide)⟩

/-- C5.  For every raw input series, in whatever order the upstream delivers
the paired arrays, the cleaned series is sorted non-decreasing by date. -/
theorem C5_sorted_by_date (ts : List Int) (ps : List (Option ℚ)) :
    List.Sorted byDate (fetchClean ts ps) :=
  List.sorted_insertionSort byDate (cleanData ts ps)

/-- A parsed upstream payload whose single price entry is null. -/
def allNullPayload : YahooPayload :=
  ⟨none, some [1], some [none]⟩

/-- C6, counterexample.  A fetch whose raw series yields zero clean points
does NOT fail with an `EmptySeriesError`: `fetchStockData` has no emptiness
check and returns `success: true` with an empty series, and the aggregation
loop then records the symbol in the SUCCESS partition, not the failure
partition. -/
theorem C6_empty_series_counterexample :
    fetchStockData allNullPayload = .ok [] ∧
      (partitionOutcomes [("AAPL", fetchStockData allNullPayload)]).1 =
        [("AAPL", [])] ∧
      (partitionOutcomes [("AAPL", fetchStockData allNullPayload)]).2 = [] :=
  ⟨rfl, rfl, rfl⟩

/-- C6, amended.  For every fetch whose raw series yields zero clean points
after null-filtering (here: all prices invalid), the Series Fetcher succeeds
with an empty cleaned series, and the symbol is recorded in the success
partition of the aggregation; no per-symbol `EmptySeriesError` exists in the
code. -/
theorem C6_empty_series_amended (ts : List Int) (ps : List (Option ℚ))
    (h : ∀ p ∈ ps, p = none) (sym : String) (rest : List (String × FetchResult)) :
    fetchStockData ⟨none, some ts, some ps⟩ = .ok [] ∧
      (partitionOutcomes ((sym, fetchStockData ⟨none, some ts, some ps⟩) :: rest)).1 =
        (sym, ([] : List CleanPoint)) :: (partitionOutcomes rest).1 := by
  have hclean : fetchClean ts ps = [] := by
    rw [fetchClean, cleanData_all_none ts ps h]
    rfl
  have hfetch : fetchStockData ⟨none, some ts, some ps⟩ = .ok [] := by
    show Except.ok (fetchClean ts ps) = .ok []
    rw [hclean]
  refine ⟨hfetch, ?_⟩
  rw [hfetch]
  rfl

/-- C6 amended, witness at the concrete all-null payload. -/
theorem C6_empty_series_amended_witness :
    (∀ p ∈ ([none, none] : List (Option ℚ)), p = none) ∧
      (fetchStockData ⟨none, some [5, 6], some [none, none]⟩ = .ok [] ∧
        (partitionOutcomes
            (("MSFT", fetchStockData ⟨none, some [5, 6], some [none, none]⟩) ::
              [("AAPL", (.ok [] : FetchResult))])).1 =
          ("MSFT", ([] : List CleanPoint)) ::
            (partitionOutcomes [("AAPL", (.ok [] : FetchResult))]).1) :=
  ⟨by decide, C6_empty_series_amended _ _ (by decide) _ _⟩

/-- C7, counterexample.  Two successful series with different dates: the
emitted chart carries one shared `labels` array taken from the FIRST series'
sampled dates (here `[0]`), while the second series' own sampled dates are
`[1000]`; datasets hold only y-values, so the second dataset's x-values are
the first series' dates, contradicting the claim that each dataset carries
its own x-values independent of the other series. -/
theorem C7_labels_counterexample :
    (createComparisonConfig [("A", [⟨0, 1⟩]), ("B", [⟨1000, 1⟩])]).labels =
        (filterSample [⟨0, 1⟩]).map (fun c => c.date) ∧
      (filterSample ([⟨1000, 1⟩] : List CleanPoint)).map (fun c => c.date) = [1000] ∧
      (createComparisonConfig [("A", [⟨0, 1⟩]), ("B", [⟨1000, 1⟩])]).labels ≠
        (filterSample [⟨1000, 1⟩]).map (fun c => c.date) :=
  ⟨rfl, rfl, by decide⟩

/-- C7, amended.  In comparison mode the chart has a single shared x-label
list equal to the FIRST successful series' sampled dates (the filter-based
label sampling selects exactly the loop-sampled points), and that list is
independent of every other series in the request; the per-series datasets
carry only y-values. -/
theorem C7_labels_amended (s0 : String × List CleanPoint)
    (rest rest2 : List (String × List CleanPoint)) :
    (createComparisonConfig (s0 :: rest)).labels =
        (sampleLoopPoints s0.2).map (fun c => c.date) ∧
      (createComparisonConfig (s0 :: rest)).labels =
        (createComparisonConfig (s0 :: rest2)).labels := by
  constructor
  · show (filterSample (s0 :: rest).headI.2).map (fun c => c.date) = _
    rw [List.headI_cons, filterSample_eq_sampleLoop]
  · rfl

/-- C8.  Re-applying the sampler to an already-sampled series with the same
or a larger budget is a no-op: the first pass leaves at most 99 points, so
the second pass has stride `max(1, ⌊length / budget⌋) = 1` for any
`budget ≥ 50`, visits every index, and appends nothing. -/
theorem C8_sampler_idempotent (xs : List CleanPoint) (budget : Nat)
    (h : 50 ≤ budget) :
    samplePoints (samplePoints xs 50) budget = samplePoints xs 50 := by
  apply samplePoints_of_small
  have h99 := samplePoints_length_le xs
  calc (samplePoints xs 50).length / budget
      ≤ 99 / budget := Nat.div_le_div_right h99
    _ ≤ 99 / 50 := Nat.div_le_div_left h (by omega)
    _ = 1 := by norm_num

/-- C8, witness at a concrete three-point series and budget 50. -/
theorem C8_sampler_idempotent_witness :
    50 ≤ 50 ∧
      samplePoints (samplePoints ([⟨0, 1⟩, ⟨1000, 2⟩, ⟨2000, 3⟩] :
          List CleanPoint) 50) 50 =
        samplePoints ([⟨0, 1⟩, ⟨1000, 2⟩, ⟨2000, 3⟩] : List CleanPoint) 50 :=
  ⟨by decide, C8_sampler_idempotent _ 50 (by decide)⟩

/-- C9.  For every range token and every current time, the resolved start
time equals `now - duration(token)` with the spec's duration table (1M=30d,
3M=90d, 6M=182d in `generate-chart.js`, 1Y=365d, 5Y=5*365d, unknown tokens
mapping to the 1Y entry), and `startTime < endTime = now`; the
`stock-history.js` variant satisfies the same table with its 180-day "6M"
reading.  An absent token is defaulted to `'1Y'` by the handler before this
computation. -/
theorem C9_range_resolver (now : Int) (range : String) :
    period1 now range = now - durationDays range * secondsPerDay ∧
      period1 now range < now ∧
      (range ≠ "1M" → range ≠ "3M" → range ≠ "6M" → range ≠ "1Y" → range ≠ "5Y" →
        period1 now range = period1 now "1Y") ∧
      (range ≠ "6M" → period1History now range = period1 now range) ∧
      period1History now "6M" = now - 180 * secondsPerDay ∧
      period1History now range < now := by
  unfold period1 period1History durationDays secondsPerDay
  refine ⟨?_, ?_, ?_, ?_, ?_, ?_⟩ <;> split_ifs <;> simp_all

/-- C9, witness: instantiated at the unknown token (hypotheses of the inner
implications discharged concretely). -/
theorem C9_range_resolver_witness :
    period1 0 "2Y" = 0 - durationDays "2Y" * secondsPerDay ∧
      period1 0 "2Y" < 0 ∧
      period1 0 "2Y" = period1 0 "1Y" ∧
      period1History 0 "2Y" = period1 0 "2Y" := by
  have h := C9_range_resolver 0 "2Y"
  exact ⟨h.1, h.2.1,
    h.2.2.1 (by decide) (by decide) (by decide) (by decide) (by decide),
    h.2.2.2.1 (by decide)⟩

/-- A cleaned series whose first price is zero. -/
def zeroBaseSeries : List CleanPoint :=
  [⟨0, 0⟩, ⟨1000, 1⟩]

/-- C10.  The comparison normalization divides by the series' own first price
with no zero guard: whenever the first price is nonzero every emitted y-value
is a finite number, and for the concrete series with first price 0 the
emitted y-values are non-finite (`0/0 → NaN` for the first point,
`1/0 → Infinity` for the second), so well-definedness requires the first
price to be nonzero. -/
theorem C10_zero_base_guard :
    (∀ xs : List CleanPoint, xs.headI.price ≠ 0 →
        ∀ y ∈ percentageDataJs xs, y.isFinite = true) ∧
      zeroBaseSeries.headI.price = 0 ∧
      percentageDataJs zeroBaseSeries = [JsNum.nan, JsNum.posInf] ∧
      ∀ y ∈ percentageDataJs zeroBaseSeries, y.isFinite = false := by
  have hsample : sampleLoopPoints zeroBaseSeries = [⟨0, 0⟩, ⟨1000, 1⟩] := rfl
  have heq : percentageDataJs zeroBaseSeries = [JsNum.nan, JsNum.posInf] := by
    show (sampleLoopPoints zeroBaseSeries).map (fun c =>
        JsNum.round2Js ((((JsNum.finite c.price).sub
          (JsNum.finite zeroBaseSeries.headI.price)).div
            (JsNum.finite zeroBaseSeries.headI.price)).mul (JsNum.finite 100))) =
      [JsNum.nan, JsNum.posInf]
    rw [hsample]
    have hp0 : zeroBaseSeries.headI.price = 0 := rfl
    rw [hp0]
    norm_num [JsNum.sub, JsNum.div, JsNum.mul, JsNum.round2Js]
  refine ⟨?_, rfl, heq, ?_⟩
  · intro xs h0 y hy
    unfold percentageDataJs at hy
    obtain ⟨c, hc, rfl⟩ := List.mem_map.1 hy
    simp only [JsNum.sub, JsNum.div, if_neg h0, JsNum.mul, JsNum.round2Js, JsNum.isFinite]
  · rw [heq]
    decide

/-- C10, witness: a concrete series with nonzero first price has all-finite
emitted y-values. -/
theorem C10_zero_base_guard_witness :
    (([⟨0, 2⟩, ⟨1000, 3⟩] : List CleanPoint).headI.price ≠ 0) ∧
      ∀ y ∈ percentageDataJs ([⟨0, 2⟩, ⟨1000, 3⟩] : List CleanPoint),
        y.isFinite = true :=
  ⟨by decide, C10_zero_base_guard.1 _ (by decide)⟩

end StockChart
